import Mathlib

/-!
Verification development for the DayPharm dashboard (src/app.py).

The two specified core components are embedded shallowly:

* the schedule engine `generate_schedule_from_meds` (app.py lines 149-188),
  embedded as `generate` below; and
* the in-memory shared patient store: the pharmacist-mode report upsert
  (lines 271-279), the default most-recent selection (lines 199-220), the
  patient-mode selection by display name (lines 302-304) and the
  patient-mode medication sync (lines 309-318).

Modelling conventions:

* A Python dict field that may be absent, `None`, or a string is embedded as
  `Option (Option String)`: the outer `Option` is key presence, the inner one
  distinguishes Python `None` from a string.  `dict.get k` is `.getD none`
  and `dict.get k d` is `.getD (some d)`.
* Python `x or ""` on an optional string is `.getD ""` (both `None` and the
  empty string are falsy, and both map to `""`).
* The wall clock: the source calls `datetime.now()` inside the double loop
  of `generate_schedule_from_meds`, once per (medication, day) iteration.
  The embedding passes the readings explicitly as `clock : Nat → Nat`
  mapping the index of the `now()` call to the calendar-day ordinal of that
  reading (the time of day is dropped by `strftime("%Y-%m-%d")`, and adding
  `timedelta(days=day)` to a naive datetime shifts the day ordinal by
  exactly `day`).  Date keys are modelled by those day ordinals: the
  `YYYY-MM-DD` rendering is injective on calendar days, so key identity and
  distinctness coincide with ordinal identity and distinctness.  The day
  ordinal of 2024-01-01 (days since 1970-01-01) is 19723.
* Raised exceptions (`AttributeError` on `med.get` applied to a plain
  string, `TypeError` on `"3회" in None`) are embedded with `Except`.
-/

/-- Substring test on character lists: does the first list occur as a prefix
of the second? -/
def isPrefixL : List Char → List Char → Bool
  | [], _ => true
  | _ :: _, [] => false
  | a :: as, b :: bs => a == b && isPrefixL as bs

/-- Substring test on character lists: does the first list occur as a
contiguous infix of the second? -/
def isInfixL : List Char → List Char → Bool
  | n, [] => n.isEmpty
  | n, b :: bs => isPrefixL n (b :: bs) || isInfixL n bs

/-- Python's `needle in hay` on strings (substring containment). -/
def substrIn (needle hay : String) : Bool :=
  isInfixL needle.toList hay.toList

/-- A medication record: a Python dict with the keys used by the source.
Each field is `Option (Option String)`: outer = key present, inner =
value is a string rather than `None`. -/
structure Med where
  name : Option (Option String) := Option.none
  dosage : Option (Option String) := Option.none
  frequency : Option (Option String) := Option.none
  timing : Option (Option String) := Option.none
  duration : Option (Option String) := Option.none
deriving DecidableEq, Repr

/-- An element of a medication list: the source stores either plain name
strings or dict-shaped records (spec §9 heterogeneity). -/
inductive MedInput where
  | str : String → MedInput
  | record : Med → MedInput
deriving DecidableEq, Repr

/-- One schedule cell as built at app.py lines 182-187. -/
structure Entry where
  medication : Option String
  time : String
  dosage : Option String
  taken : Bool
deriving DecidableEq, Repr

/-- The schedule dict, keyed by calendar-day ordinal, in insertion order. -/
abbrev Schedule := List (Nat × List Entry)

/-- Keys of the schedule dict, in insertion order. -/
def dictKeys (s : Schedule) : List Nat := s.map Prod.fst

/-- `schedule[k]` lookup. -/
def dictGet (s : Schedule) (k : Nat) : Option (List Entry) :=
  match s with
  | [] => Option.none
  | (k0, v) :: rest => if k0 = k then some v else dictGet rest k

/-- `if k not in schedule: schedule[k] = []` followed by appending `es` to
`schedule[k]`: extends the value in place when the key exists, otherwise
adds the key (with value `es`) at the end of the dict order. -/
def dictAppendAll (s : Schedule) (k : Nat) (es : List Entry) : Schedule :=
  match s with
  | [] => [(k, es)]
  | (k0, v) :: rest =>
      if k0 = k then (k0, v ++ es) :: rest else (k0, v) :: dictAppendAll rest k es

/-- Python `str.lower()`, as a computable character-wise map (Lean's
`String.toLower` maps `Char.toLower` over the characters the same way, but
is defined by well-founded recursion, which does not evaluate inside the
kernel). -/
def lowerStr (s : String) : String := String.mk (s.data.map Char.toLower)

/-- `(med.get("timing") or "").lower()` (app.py line 155). -/
def lowT (m : Med) : String := lowerStr ((m.timing.getD Option.none).getD "")

/-- The daypart keyword table applied to a lowered timing string
(app.py lines 158-166): 아침→08:00, 점심→12:00, 저녁→18:00,
취침/자기 전→22:00, in that order. -/
def timingTimes (timing : String) : List String :=
  (if substrIn "아침" timing then ["08:00"] else [])
    ++ (if substrIn "점심" timing then ["12:00"] else [])
    ++ (if substrIn "저녁" timing then ["18:00"] else [])
    ++ (if substrIn "취침" timing || substrIn "자기 전" timing then ["22:00"] else [])

/-- Time derivation for one medication record (app.py lines 155-174).
`med.get("frequency", "1일 1회")` yields Python `None` when the key is
present with value `None`; `"3회" in None` then raises `TypeError`. -/
def deriveTimes (m : Med) : Except String (List String) :=
  let times := timingTimes (lowT m)
  if times.isEmpty then
    match m.frequency.getD (some "1일 1회") with
    | Option.none => Except.error "TypeError"
    | some freq =>
        if substrIn "3회" freq then Except.ok ["08:00", "12:00", "18:00"]
        else if substrIn "2회" freq then Except.ok ["08:00", "18:00"]
        else Except.ok ["08:00"]
  else Except.ok times

/-- The schedule cell built for medication `m` at time `t`
(app.py lines 182-187). -/
def entryFor (m : Med) (t : String) : Entry :=
  { medication := m.name.getD (some "이름 없음")
    time := t
    dosage := m.dosage.getD (some "")
    taken := false }

/-- The seven day ordinals produced for one medication:
`datetime.now() + timedelta(days=day)` for `day = 0..6`, where `ctr` is the
index of the first `now()` call made for this medication. -/
def medDates (clock : Nat → Nat) (ctr : Nat) : List Nat :=
  (List.range 7).map (fun day => clock (ctr + day) + day)

/-- The day loop of one medication (app.py lines 176-187): for each date,
ensure the key exists and append one entry per derived time. -/
def processDays (es : List Entry) (dates : List Nat) (s : Schedule) : Schedule :=
  dates.foldl (fun acc d => dictAppendAll acc d es) s

/-- The medication loop of `generate_schedule_from_meds`, threading the
schedule dict and the `now()` call counter.  A plain-string element raises
`AttributeError` at `med.get`. -/
def generateGo : List MedInput → (Nat → Nat) → Nat → Schedule → Except String Schedule
  | [], _, _, s => Except.ok s
  | MedInput.str _ :: _, _, _, _ => Except.error "AttributeError"
  | MedInput.record m :: rest, clock, ctr, s =>
      match deriveTimes m with
      | Except.error e => Except.error e
      | Except.ok ts =>
          generateGo rest clock (ctr + 7)
            (processDays (ts.map (entryFor m)) (medDates clock ctr) s)

/-- `generate_schedule_from_meds` (app.py lines 149-188). -/
def generate (meds : List MedInput) (clock : Nat → Nat) : Except String Schedule :=
  generateGo meds clock 0 []

/-- A record of the shared patient store `st.session_state.shared_patients`.
The fields are the dict keys the source writes (auto records at lines
344-352, pharmacist records at lines 256-263 and 276-279).  `id` is absent
(`Option.none`) on pharmacist-created records; `name` and `report` may be
Python `None`. -/
structure PatientRecord where
  id : Option String := Option.none
  name : Option String := Option.none
  age : String := ""
  gender : String := ""
  conditions : String := ""
  medications : List MedInput := []
  memo : String := ""
  report : Option String := Option.none
deriving DecidableEq, Repr

/-- The `patient_data` dict built by the pharmacist form (app.py lines
256-263): all values are widget strings, and `medications` is the
comma-split list of plain name strings. -/
structure PatientData where
  name : String
  age : String
  gender : String
  conditions : String
  medications : List String
  memo : String
deriving DecidableEq, Repr

/-- `selected_patient.update(patient_data)` followed by
`selected_patient["report"] = report_text` (app.py lines 273-274):
overwrites the six form fields and the report, leaving every other key
(in particular `id`) untouched. -/
def applyUpdate (r : PatientRecord) (data : PatientData) (rep : String) : PatientRecord :=
  { r with
    name := some data.name
    age := data.age
    gender := data.gender
    conditions := data.conditions
    medications := data.medications.map MedInput.str
    memo := data.memo
    report := some rep }

/-- The fresh record `{**patient_data, "report": report_text}` appended at
app.py lines 276-279; it has no `id` key. -/
def newRecord (data : PatientData) (rep : String) : PatientRecord :=
  { id := Option.none
    name := some data.name
    age := data.age
    gender := data.gender
    conditions := data.conditions
    medications := data.medications.map MedInput.str
    memo := data.memo
    report := some rep }

/-- The report upsert (app.py lines 271-279): when a patient is selected
(`matched = some i`, the index of the previously selected record) the
record is updated in place; otherwise a new record is appended. -/
def upsert (store : List PatientRecord) (matched : Option Nat) (data : PatientData)
    (rep : String) : List PatientRecord :=
  match matched with
  | some i =>
      match store[i]? with
      | some r => store.set i (applyUpdate r data rep)
      | Option.none => store
  | Option.none => store ++ [newRecord data rep]

/-- `st.session_state.shared_patients.append(record)`. -/
def appendRecord (store : List PatientRecord) (r : PatientRecord) : List PatientRecord :=
  store ++ [r]

/-- The pharmacist-mode default selection (app.py lines 199-220): `None`
when the store is empty, otherwise `patients[len(patients) - 1]`. -/
def findMostRecent (store : List PatientRecord) : Option PatientRecord :=
  if store.isEmpty then Option.none else store[store.length - 1]?

/-- `p["name"] or "(이름없음)"` (app.py lines 302 and 304): the display
name of a stored patient, with the placeholder for `None` or empty names. -/
def displayName (p : PatientRecord) : String :=
  match p.name with
  | some s => if s = "" then "(이름없음)" else s
  | Option.none => "(이름없음)"

/-- `next(p for p in shared_patients if (p["name"] or "(이름없음)") ==
selected_name)` (app.py line 304): first record whose display name matches. -/
def findByDisplayName (store : List PatientRecord) (target : String) : Option PatientRecord :=
  store.find? (fun p => displayName p == target)

/-- The display name extracted from a stored medication entry at app.py
line 312: `m if isinstance(m, str) else m.get("name", "")`. -/
def displayOfInput : MedInput → Option String
  | MedInput.str s => some s
  | MedInput.record r => r.name.getD (some "")

/-- One synced working medication (app.py lines 311-316). -/
def mkSynced (n : Option String) : Med :=
  { name := some n
    dosage := some (some "")
    frequency := some (some "1일 1회")
    timing := some (some "아침")
    duration := some (some "") }

/-- The patient-mode medication sync (app.py lines 309-318): the working
list is wholly replaced by one reset entry per stored medication. -/
def syncMedications (meds : List MedInput) : List Med :=
  meds.map (fun mi => mkSynced (displayOfInput mi))

/-- Modelled from the spec (§4.1 steps 1-2, claim C3's reference
definition): the derived time set as the spec words it — the union of the
daypart keyword times, and only if that is empty the frequency fallback,
with an unrecognizable (including null) frequency giving 08:00.  This is
the comparison point for the refinement claim C3, not source code. -/
def deriveTimesSpec (m : Med) : List String :=
  let times := timingTimes (lowT m)
  if times.isEmpty then
    let freq := (m.frequency.getD (some "1일 1회")).getD ""
    if substrIn "3회" freq then ["08:00", "12:00", "18:00"]
    else if substrIn "2회" freq then ["08:00", "18:00"]
    else ["08:00"]
  else times

/-- The per-day entry block contributed by one medication record: its
derived times mapped to schedule cells (empty when derivation raises —
unused in that case, since the whole call raises). -/
def medEntries (m : Med) : List Entry :=
  match deriveTimes m with
  | Except.ok ts => ts.map (entryFor m)
  | Except.error _ => []

/-- The entry list every date key carries after all medications are
processed: the concatenation of the per-medication blocks, in list order. -/
def dayEntries (meds : List Med) : List Entry :=
  (meds.map medEntries).flatten

/-- Propagation of the first time-derivation error over a medication list
(mirrors the order in which `generate_schedule_from_meds` visits records). -/
def allOk : List Med → Except String Unit
  | [] => Except.ok ()
  | m :: rest =>
      match deriveTimes m with
      | Except.error e => Except.error e
      | Except.ok _ => allOk rest

/-- The date keys of a schedule produced with a constant wall clock:
used to compare two runs of `generate` at different wall-clock dates. -/
def keysAtClock (meds : List MedInput) (t0 : Nat) : List Nat :=
  match generate meds (fun _ => t0) with
  | Except.ok s => dictKeys s
  | Except.error _ => []

/-- A schedule whose keys are the seven consecutive days starting at `t0`,
with per-day entry lists given by `g`. -/
def rangeSched (t0 : Nat) (g : Nat → List Entry) : Schedule :=
  (List.range 7).map (fun d => (t0 + d, g d))

/-- The clock ranking of the four daypart times, for stating ascending
order of derived time lists. -/
def timeRank (t : String) : Nat :=
  if t = "08:00" then 8 else if t = "12:00" then 12
  else if t = "18:00" then 18 else if t = "22:00" then 22 else 0

/-- Sample record: the spec §8 Amoxicillin example medication. -/
def amoxi : Med :=
  { name := some (some "Amoxicillin")
    dosage := some (some "500mg")
    frequency := some (some "1일 3회")
    timing := some (some "") }

/-- Sample record whose timing names morning and evening dayparts while the
frequency says three times a day. -/
def medME : Med :=
  { timing := some (some "아침 식후, 저녁 식후")
    frequency := some (some "1일 3회") }

/-- Sample record whose frequency key is present with value Python `None`
and whose timing matches no keyword. -/
def medNullFreq : Med := { frequency := some Option.none }

/-- Sample record taken before bedtime (the spec §8 Zolpidem example). -/
def medBed : Med := { name := some (some "Zolpidem"), timing := some (some "취침 전") }

/-- The schedule the Amoxicillin example produces when the wall-clock day
ordinal is 19723 (2024-01-01). -/
def amoxiSched : Schedule := rangeSched 19723 (fun _ => dayEntries [amoxi])

theorem dictKeys_append (a b : Schedule) : dictKeys (a ++ b) = dictKeys a ++ dictKeys b :=
  List.map_append Prod.fst a b

theorem dictKeys_dictAppendAll (s : Schedule) (k : Nat) (es : List Entry) :
    dictKeys (dictAppendAll s k es) =
      if k ∈ dictKeys s then dictKeys s else dictKeys s ++ [k] := by
  induction s with
  | nil => simp [dictAppendAll, dictKeys]
  | cons p rest ih =>
      obtain ⟨k0, v⟩ := p
      by_cases h : k0 = k
      · subst h
        simp [dictAppendAll, dictKeys]
      · have h' : ¬ k = k0 := fun hk => h hk.symm
        simp only [dictAppendAll, if_neg h, dictKeys, List.map_cons]
        simp only [dictKeys] at ih
        rw [ih]
        by_cases hm : k ∈ List.map Prod.fst rest
        · simp [hm, h']
        · simp [hm, h']

theorem dictAppendAll_fresh (s : Schedule) (k : Nat) (es : List Entry)
    (h : k ∉ dictKeys s) : dictAppendAll s k es = s ++ [(k, es)] := by
  induction s with
  | nil => rfl
  | cons p rest ih =>
      obtain ⟨k0, v⟩ := p
      simp only [dictKeys, List.map_cons, List.mem_cons, not_or] at h
      have hne : ¬ k0 = k := fun hk => h.1 hk.symm
      simp only [dictAppendAll, if_neg hne, List.cons_append, List.cons.injEq, true_and]
      exact ih h.2

theorem processDays_cons_comm (es : List Entry) (dates : List Nat) (k0 : Nat)
    (v : List Entry) (s : Schedule) (h : ∀ d ∈ dates, d ≠ k0) :
    processDays es dates ((k0, v) :: s) = (k0, v) :: processDays es dates s := by
  induction dates generalizing s with
  | nil => rfl
  | cons d ds ih =>
      have hd : ¬ k0 = d := fun hk => h d (List.mem_cons_self d ds) hk.symm
      simp only [processDays, List.foldl_cons] at *
      rw [show dictAppendAll ((k0, v) :: s) d es = (k0, v) :: dictAppendAll s d es by
        simp [dictAppendAll, hd]]
      exact ih (dictAppendAll s d es) (fun d' hd' => h d' (List.mem_cons_of_mem d hd'))

theorem processDays_exact (es : List Entry) (s : Schedule)
    (h : (dictKeys s).Nodup) :
    processDays es (dictKeys s) s = s.map (fun p => (p.1, p.2 ++ es)) := by
  induction s with
  | nil => rfl
  | cons p rest ih =>
      obtain ⟨k0, v⟩ := p
      simp only [dictKeys, List.map_cons, List.nodup_cons] at h
      simp only [dictKeys, List.map_cons, processDays, List.foldl_cons]
      rw [show dictAppendAll ((k0, v) :: rest) k0 es = (k0, v ++ es) :: rest by
        simp [dictAppendAll]]
      rw [show List.foldl (fun acc d => dictAppendAll acc d es) ((k0, v ++ es) :: rest)
            (List.map Prod.fst rest) =
          processDays es (dictKeys rest) ((k0, v ++ es) :: rest) from rfl]
      rw [processDays_cons_comm es (dictKeys rest) k0 (v ++ es) rest
        (fun d hd => fun hk => h.1 (hk ▸ hd))]
      rw [ih h.2]

theorem processDays_fresh (es : List Entry) (dates : List Nat) (s : Schedule)
    (hnd : dates.Nodup) (h : ∀ d ∈ dates, d ∉ dictKeys s) :
    processDays es dates s = s ++ dates.map (fun d => (d, es)) := by
  induction dates generalizing s with
  | nil => simp [processDays]
  | cons d ds ih =>
      simp only [List.nodup_cons] at hnd
      simp only [processDays, List.foldl_cons]
      rw [dictAppendAll_fresh s d es (h d (List.mem_cons_self d ds))]
      have hstep : ∀ d' ∈ ds, d' ∉ dictKeys (s ++ [(d, es)]) := by
        intro d' hd'
        rw [dictKeys_append]
        simp only [List.mem_append, not_or]
        refine ⟨h d' (List.mem_cons_of_mem d hd'), ?_⟩
        simp only [dictKeys, List.map_cons, List.map_nil, List.mem_singleton]
        exact fun hk => hnd.1 (hk ▸ hd')
      have := ih (s ++ [(d, es)]) hnd.2 hstep
      simp only [processDays] at this
      rw [this, List.append_assoc]
      rfl

theorem medDates_const (t0 ctr : Nat) :
    medDates (fun _ => t0) ctr = (List.range 7).map (fun d => t0 + d) := rfl

theorem dictKeys_rangeSched (t0 : Nat) (g : Nat → List Entry) :
    dictKeys (rangeSched t0 g) = (List.range 7).map (fun d => t0 + d) := by
  simp [rangeSched, dictKeys, List.map_map]

theorem nodup_rangeKeys (t0 : Nat) :
    ((List.range 7).map (fun d => t0 + d)).Nodup :=
  List.Nodup.map (fun a b h => by omega) (List.nodup_range 7)

theorem generateGo_closed (meds : List Med) (t0 : Nat) :
    ∀ (ctr : Nat) (g : Nat → List Entry),
    generateGo (meds.map MedInput.record) (fun _ => t0) ctr (rangeSched t0 g) =
      match allOk meds with
      | Except.error e => Except.error e
      | Except.ok _ => Except.ok (rangeSched t0 (fun d => g d ++ dayEntries meds)) := by
  induction meds with
  | nil =>
      intro ctr g
      simp [generateGo, allOk, dayEntries, rangeSched]
  | cons m rest ih =>
      intro ctr g
      simp only [List.map_cons, generateGo]
      cases h : deriveTimes m with
      | error e => simp [allOk, h]
      | ok ts =>
          dsimp only
          rw [medDates_const, show (List.range 7).map (fun d => t0 + d) =
              dictKeys (rangeSched t0 g) from (dictKeys_rangeSched t0 g).symm]
          rw [processDays_exact _ _ (by rw [dictKeys_rangeSched]; exact nodup_rangeKeys t0)]
          rw [show (rangeSched t0 g).map (fun p => (p.1, p.2 ++ ts.map (entryFor m))) =
              rangeSched t0 (fun d => g d ++ ts.map (entryFor m)) by
            simp [rangeSched, List.map_map]]
          rw [ih (ctr + 7) (fun d => g d ++ ts.map (entryFor m))]
          simp only [allOk, h]
          cases allOk rest with
          | error e => rfl
          | ok u =>
              simp only [dayEntries, medEntries, h, List.map_cons, List.flatten_cons]
              simp [rangeSched, List.append_assoc]

theorem generate_recs_closed (meds : List Med) (t0 : Nat) :
    generate (meds.map MedInput.record) (fun _ => t0) =
      match allOk meds, meds with
      | Except.error e, _ => Except.error e
      | Except.ok _, [] => Except.ok []
      | Except.ok _, _ :: _ => Except.ok (rangeSched t0 (fun _ => dayEntries meds)) := by
  cases meds with
  | nil => rfl
  | cons m rest =>
      simp only [generate, List.map_cons, generateGo]
      cases h : deriveTimes m with
      | error e => simp [allOk, h]
      | ok ts =>
          dsimp only
          rw [medDates_const]
          rw [processDays_fresh _ _ _ (nodup_rangeKeys t0) (by intro d hd; simp [dictKeys])]
          rw [show ([] : Schedule) ++ ((List.range 7).map (fun d => t0 + d)).map
                (fun d => (d, ts.map (entryFor m))) =
              rangeSched t0 (fun _ => ts.map (entryFor m)) by
            simp [rangeSched, List.map_map]]
          rw [generateGo_closed rest t0 7 (fun _ => ts.map (entryFor m))]
          simp only [allOk, h]
          cases allOk rest with
          | error e => rfl
          | ok u =>
              simp only [dayEntries, medEntries, h, List.map_cons, List.flatten_cons]

theorem timingTimes_sublist (T : String) :
    (timingTimes T).Sublist ["08:00", "12:00", "18:00", "22:00"] := by
  unfold timingTimes
  split_ifs <;> decide

theorem deriveTimes_cases (m : Med) (ts : List String)
    (h : deriveTimes m = Except.ok ts) :
    (ts = timingTimes (lowT m) ∧ ts ≠ []) ∨
      ts = ["08:00", "12:00", "18:00"] ∨ ts = ["08:00", "18:00"] ∨ ts = ["08:00"] := by
  unfold deriveTimes at h
  by_cases he : (timingTimes (lowT m)).isEmpty
  · rw [if_pos he] at h
    cases hf : m.frequency.getD (some "1일 1회") with
    | none => rw [hf] at h; simp at h
    | some freq =>
        rw [hf] at h
        dsimp only at h
        split_ifs at h <;> (cases h; simp)
  · rw [if_neg he] at h
    cases h
    exact Or.inl ⟨rfl, by simpa [List.isEmpty_iff] using he⟩


/-- Claim C1, counterexample: on the empty medication list
`generate_schedule_from_meds` returns the empty dict, which has 0 date
keys rather than the 7 the claim requires for every list. -/
theorem generate_empty_meds_counterexample :
    generate [] (fun _ => 0) = Except.ok [] ∧ (dictKeys ([] : Schedule)).length = 0 :=
  ⟨rfl, rfl⟩

/-- Claim C1 (amended): for every non-empty list of medication records on
which `generate_schedule_from_meds` returns normally, the returned mapping
has exactly 7 distinct date keys, namely the 7 consecutive calendar days
starting (inclusive) at the wall-clock date read inside the function. -/
theorem generate_seven_consecutive_day_keys (meds : List Med) (t0 : Nat) (s : Schedule)
    (h : generate (meds.map MedInput.record) (fun _ => t0) = Except.ok s)
    (hne : meds ≠ []) :
    dictKeys s = (List.range 7).map (fun d => t0 + d) ∧
      (dictKeys s).length = 7 ∧ (dictKeys s).Nodup := by
  have hc := generate_recs_closed meds t0
  rw [h] at hc
  cases hao : allOk meds with
  | error e => rw [hao] at hc; exact absurd hc (by simp)
  | ok u =>
      rw [hao] at hc
      cases meds with
      | nil => exact absurd rfl hne
      | cons m rest =>
          have hs : s = rangeSched t0 (fun _ => dayEntries (m :: rest)) := by
            simpa using hc
          subst hs
          refine ⟨dictKeys_rangeSched t0 _, ?_, ?_⟩
          · rw [dictKeys_rangeSched]; simp
          · rw [dictKeys_rangeSched]; exact nodup_rangeKeys t0

/-- Witness for C1 at a concrete input: one default-shaped medication
record, wall-clock day 19723. -/
theorem generate_seven_consecutive_day_keys_witness :
    ([({} : Med)] ≠ []) ∧
      (dictKeys (rangeSched 19723 (fun _ => dayEntries [({} : Med)])) =
          (List.range 7).map (fun d => 19723 + d) ∧
        (dictKeys (rangeSched 19723 (fun _ => dayEntries [({} : Med)]))).length = 7 ∧
        (dictKeys (rangeSched 19723 (fun _ => dayEntries [({} : Med)]))).Nodup) :=
  ⟨by simp, generate_seven_consecutive_day_keys [{}] 19723 _ rfl (by simp)⟩

/-- Claim C2, counterexample: the wall clock is read inside
`generate_schedule_from_meds` (there is no `startDate` parameter), so the
same medication list scheduled at wall-clock day 0 and at day 1 yields
different outputs — the output does depend on ambient mutable state. -/
theorem generate_reads_wall_clock_counterexample :
    keysAtClock [MedInput.record {}] 0 ≠ keysAtClock [MedInput.record {}] 1 := by
  decide

/-- Claim C2 (amended): `generate_schedule_from_meds` is deterministic as a
function of the medication list and the sequence of wall-clock readings it
makes: two calls observing identical readings produce identical output.
The wall clock, however, is read internally via `datetime.now()` rather
than supplied as a parameter. -/
theorem generate_deterministic_given_clock (meds : List MedInput) (c1 c2 : Nat → Nat)
    (h : ∀ k, c1 k = c2 k) : generate meds c1 = generate meds c2 := by
  have hc : c1 = c2 := funext h
  rw [hc]

/-- Witness for C2 at a concrete input. -/
theorem generate_deterministic_given_clock_witness :
    generate [MedInput.record amoxi] (fun _ => 5) =
      generate [MedInput.record amoxi] (fun k => 5 + 0 * k) :=
  generate_deterministic_given_clock [MedInput.record amoxi] _ _ (fun k => by simp)

/-- Claim C3, counterexample: on a record whose `frequency` key holds
Python `None` and whose timing matches no keyword, the code raises
`TypeError` at `"3회" in frequency`, while the reference definition of the
claim derives {08:00}; so the derived set does not equal the reference
for every record. -/
theorem deriveTimes_null_frequency_counterexample :
    deriveTimes medNullFreq = Except.error "TypeError" ∧
      deriveTimesSpec medNullFreq = ["08:00"] :=
  ⟨rfl, rfl⟩

/-- Claim C3 (amended): whenever the time derivation returns normally, the
derived time list equals the reference definition — the union of the
matched daypart keyword times (morning 08:00, lunch 12:00, evening 18:00,
bedtime 22:00), and, only when that union is empty, the frequency
fallback (3회 → three times, 2회 → two times, otherwise 08:00).  The one
divergence is the `TypeError` raised when no timing keyword matches and
the frequency value is `None`. -/
theorem deriveTimes_matches_spec_on_success (m : Med) (ts : List String)
    (h : deriveTimes m = Except.ok ts) : ts = deriveTimesSpec m := by
  unfold deriveTimes at h
  unfold deriveTimesSpec
  by_cases he : (timingTimes (lowT m)).isEmpty
  · rw [if_pos he] at h
    rw [if_pos he]
    cases hf : m.frequency.getD (some "1일 1회") with
    | none => rw [hf] at h; simp at h
    | some freq =>
        rw [hf] at h
        dsimp only at h
        dsimp only [Option.getD]
        split_ifs at h ⊢ <;> (injection h with h0; exact h0.symm)
  · rw [if_neg he] at h
    rw [if_neg he]
    injection h with h0
    exact h0.symm

/-- Witness for C3 at a concrete input: morning+evening timing with a
three-times frequency derives exactly {08:00, 18:00}. -/
theorem deriveTimes_matches_spec_on_success_witness :
    deriveTimes medME = Except.ok ["08:00", "18:00"] ∧
      ["08:00", "18:00"] = deriveTimesSpec medME :=
  ⟨rfl, deriveTimes_matches_spec_on_success medME ["08:00", "18:00"] rfl⟩

/-- Claim C4 (code bug): the spec demands that scheduling never fail on
malformed input, but the code raises: a plain-string medication entry hits
`AttributeError` at `med.get`, and a `None` frequency with unrecognized
timing hits `TypeError` at the `in` test. -/
theorem generate_raises_on_malformed_input :
    generate [MedInput.str "Amoxicillin"] (fun _ => 0) = Except.error "AttributeError" ∧
      generate [MedInput.record medNullFreq] (fun _ => 0) = Except.error "TypeError" :=
  ⟨rfl, rfl⟩

/-- Claim C5: every emitted entry has `taken = false` and carries the
medication name and dosage copied from its originating record (placeholder
이름 없음 when the `name` key is absent, empty string when `dosage` is
absent); and the spec §8 Amoxicillin example produces, for the start day
(ordinal 19723 = 2024-01-01), exactly three entries at 08:00, 12:00,
18:00 with the copied fields. -/
theorem generate_entries_taken_false_and_copied :
    (∀ (meds : List Med) (t0 : Nat) (s : Schedule),
        generate (meds.map MedInput.record) (fun _ => t0) = Except.ok s →
        ∀ p ∈ s, ∀ e ∈ p.2,
          e.taken = false ∧
            ∃ m, m ∈ meds ∧
              e.medication = m.name.getD (some "이름 없음") ∧
              e.dosage = m.dosage.getD (some "")) ∧
      generate [MedInput.record amoxi] (fun _ => 19723) = Except.ok amoxiSched ∧
      dictGet amoxiSched 19723 =
        some [{ medication := some "Amoxicillin", time := "08:00",
                dosage := some "500mg", taken := false },
              { medication := some "Amoxicillin", time := "12:00",
                dosage := some "500mg", taken := false },
              { medication := some "Amoxicillin", time := "18:00",
                dosage := some "500mg", taken := false }] := by
  refine ⟨?_, rfl, rfl⟩
  intro meds t0 s h p hp e he
  have hc := generate_recs_closed meds t0
  rw [h] at hc
  cases hao : allOk meds with
  | error e0 => rw [hao] at hc; exact absurd hc (by simp)
  | ok u =>
      rw [hao] at hc
      cases meds with
      | nil =>
          have hs : s = [] := by simpa using hc
          subst hs
          exact absurd hp (by simp)
      | cons m0 rest =>
          have hs : s = rangeSched t0 (fun _ => dayEntries (m0 :: rest)) := by
            simpa using hc
          subst hs
          simp only [rangeSched, List.mem_map] at hp
          obtain ⟨d, _, hpd⟩ := hp
          have hp2 : p.2 = dayEntries (m0 :: rest) := by rw [← hpd]
          rw [hp2] at he
          simp only [dayEntries, List.mem_flatten, List.mem_map] at he
          obtain ⟨l, ⟨m, hm, hml⟩, hel⟩ := he
          rw [← hml] at hel
          simp only [medEntries] at hel
          cases hd : deriveTimes m with
          | error e0 => rw [hd] at hel; exact absurd hel (by simp)
          | ok ts =>
              rw [hd] at hel
              simp only [List.mem_map] at hel
              obtain ⟨t, _, het⟩ := hel
              subst het
              exact ⟨rfl, m, hm, rfl, rfl⟩

/-- Witness for C5 at a concrete input: the 08:00 Amoxicillin entry of the
example schedule. -/
theorem generate_entries_taken_false_and_copied_witness :
    (entryFor amoxi "08:00").taken = false ∧
      ∃ m, m ∈ [amoxi] ∧
        (entryFor amoxi "08:00").medication = m.name.getD (some "이름 없음") ∧
        (entryFor amoxi "08:00").dosage = m.dosage.getD (some "") :=
  generate_entries_taken_false_and_copied.1 [amoxi] 19723 amoxiSched rfl
    (19723, dayEntries [amoxi]) (by decide) (entryFor amoxi "08:00") (by decide)

/-- Claim C6: upsert on a matched (previously selected) record rewrites
that record in place — same position, list length unchanged, every other
position untouched — overwriting exactly the updatable fields
name/age/gender/conditions/medications/memo plus report, while the `id`
key is unchanged; upsert with no matched record appends one new record. -/
theorem upsert_in_place_and_append (store : List PatientRecord) (i : Nat)
    (data : PatientData) (rep : String) (h : i < store.length) :
    ((upsert store (some i) data rep).length = store.length ∧
      (upsert store (some i) data rep)[i]? =
        some (applyUpdate (store.get ⟨i, h⟩) data rep) ∧
      ∀ j, j ≠ i → (upsert store (some i) data rep)[j]? = store[j]?) ∧
    ((applyUpdate (store.get ⟨i, h⟩) data rep).id = (store.get ⟨i, h⟩).id ∧
      (applyUpdate (store.get ⟨i, h⟩) data rep).name = some data.name ∧
      (applyUpdate (store.get ⟨i, h⟩) data rep).age = data.age ∧
      (applyUpdate (store.get ⟨i, h⟩) data rep).gender = data.gender ∧
      (applyUpdate (store.get ⟨i, h⟩) data rep).conditions = data.conditions ∧
      (applyUpdate (store.get ⟨i, h⟩) data rep).medications =
        data.medications.map MedInput.str ∧
      (applyUpdate (store.get ⟨i, h⟩) data rep).memo = data.memo ∧
      (applyUpdate (store.get ⟨i, h⟩) data rep).report = some rep) ∧
    ((upsert store Option.none data rep).length = store.length + 1 ∧
      upsert store Option.none data rep = store ++ [newRecord data rep]) := by
  have hget : store[i]? = some (store.get ⟨i, h⟩) := by
    rw [List.getElem?_eq_getElem h]
    rfl
  have hup : upsert store (some i) data rep =
      store.set i (applyUpdate (store.get ⟨i, h⟩) data rep) := by
    simp [upsert, hget]
  refine ⟨⟨?_, ?_, ?_⟩, ⟨rfl, rfl, rfl, rfl, rfl, rfl, rfl, rfl⟩, ?_, rfl⟩
  · rw [hup]; simp
  · rw [hup, List.getElem?_set_self]
    exact h
  · intro j hj
    rw [hup]
    exact List.getElem?_set_ne (fun hk => hj hk.symm)
  · simp [upsert]

/-- Witness for C6 at a concrete input: a one-record store. -/
theorem upsert_in_place_and_append_witness :
    (0 < [({ id := some "2024", name := some "A" } : PatientRecord)].length) ∧
      (upsert [({ id := some "2024", name := some "A" } : PatientRecord)] (some 0)
        { name := "B", age := "30", gender := "여성", conditions := "",
          medications := ["Tylenol"], memo := "" } "R").length =
        [({ id := some "2024", name := some "A" } : PatientRecord)].length :=
  ⟨by decide,
    (upsert_in_place_and_append [{ id := some "2024", name := some "A" }] 0
      { name := "B", age := "30", gender := "여성", conditions := "",
        medications := ["Tylenol"], memo := "" } "R" (by decide)).1.1⟩

/-- Claim C7: the pharmacist-mode default selection is `None` on an empty
store and otherwise the last-appended record: after any append the
selection is exactly the appended record. -/
theorem findMostRecent_empty_and_last :
    findMostRecent [] = Option.none ∧
      ∀ (store : List PatientRecord) (r : PatientRecord),
        findMostRecent (appendRecord store r) = some r := by
  refine ⟨rfl, ?_⟩
  intro store r
  simp [findMostRecent, appendRecord]

/-- Claim C8: the patient-mode lookup is a linear first-match search on
display names (`name`, with the placeholder (이름없음) for `None` or empty
names): if position `i` holds a record with the requested display name and
no earlier position does, the lookup returns exactly that record. -/
theorem findByDisplayName_first_match (store : List PatientRecord) (target : String)
    (i : Nat) (p : PatientRecord) (hp : store[i]? = some p)
    (hdisp : displayName p = target)
    (hfirst : ∀ j q, j < i → store[j]? = some q → displayName q ≠ target) :
    findByDisplayName store target = some p := by
  induction store generalizing i with
  | nil => simp at hp
  | cons q rest ih =>
      cases i with
      | zero =>
          simp only [List.getElem?_cons_zero, Option.some.injEq] at hp
          subst hp
          simp [findByDisplayName, List.find?_cons, hdisp]
      | succ i0 =>
          have hq : displayName q ≠ target :=
            hfirst 0 q (Nat.succ_pos i0) (by simp)
          have hqb : (displayName q == target) = false := by simpa using hq
          simp only [findByDisplayName, List.find?_cons, hqb]
          exact ih i0 (by simpa using hp)
            (fun j r hj hr => hfirst (j + 1) r (by omega) (by simpa using hr))

/-- Witness for C8 at a concrete input: two records that both display as
(이름없음) — the first one is returned. -/
theorem findByDisplayName_first_match_witness :
    ([({ name := some "" } : PatientRecord), { name := some "", memo := "B" }])[0]? =
        some ({ name := some "" } : PatientRecord) ∧
      findByDisplayName [({ name := some "" } : PatientRecord),
          { name := some "", memo := "B" }] "(이름없음)" =
        some ({ name := some "" } : PatientRecord) :=
  ⟨rfl,
    findByDisplayName_first_match
      [{ name := some "" }, { name := some "", memo := "B" }] "(이름없음)" 0
      { name := some "" } rfl rfl
      (fun j _q hj _ => absurd hj (Nat.not_lt_zero j))⟩

/-- Claim C9: the derived time list of any medication record that derives
normally is non-empty, duplicate-free, strictly ascending by clock time,
and drawn from {08:00, 12:00, 18:00, 22:00}; hence a medication yields
between 1 and 4 entries per day, and a single medication's day block is
its times, in ascending order, mapped to entries. -/
theorem deriveTimes_invariant (m : Med) (ts : List String)
    (h : deriveTimes m = Except.ok ts) :
    ts ≠ [] ∧ ts.Sublist ["08:00", "12:00", "18:00", "22:00"] ∧ ts.Nodup ∧
      ts.Pairwise (fun a b => timeRank a < timeRank b) ∧
      1 ≤ ts.length ∧ ts.length ≤ 4 ∧
      ∀ t0 : Nat, generate [MedInput.record m] (fun _ => t0) =
        Except.ok (rangeSched t0 (fun _ => ts.map (entryFor m))) := by
  have hsub : ts.Sublist ["08:00", "12:00", "18:00", "22:00"] := by
    rcases deriveTimes_cases m ts h with ⟨hts, _⟩ | hts | hts | hts
    · rw [hts]; exact timingTimes_sublist (lowT m)
    all_goals rw [hts]; decide
  have hne : ts ≠ [] := by
    rcases deriveTimes_cases m ts h with ⟨_, hne⟩ | hts | hts | hts
    · exact hne
    all_goals rw [hts]; decide
  refine ⟨hne, hsub, hsub.nodup (by decide), List.Pairwise.sublist hsub (by decide), ?_, ?_, ?_⟩
  · exact Nat.one_le_iff_ne_zero.mpr (fun h0 => hne (List.eq_nil_of_length_eq_zero h0))
  · exact le_trans hsub.length_le (by decide)
  · intro t0
    have hc := generate_recs_closed [m] t0
    simp only [List.map_cons, List.map_nil] at hc
    rw [hc]
    simp [allOk, h, dayEntries, medEntries]

/-- Witness for C9 at a concrete input: the bedtime-only medication
derives exactly the single time 22:00. -/
theorem deriveTimes_invariant_witness :
    deriveTimes medBed = Except.ok ["22:00"] ∧
      ["22:00"].Sublist ["08:00", "12:00", "18:00", "22:00"] ∧
      generate [MedInput.record medBed] (fun _ => 0) =
        Except.ok (rangeSched 0 (fun _ => ["22:00"].map (entryFor medBed))) :=
  ⟨rfl, (deriveTimes_invariant medBed ["22:00"] rfl).2.1,
    (deriveTimes_invariant medBed ["22:00"] rfl).2.2.2.2.2.2 0⟩

theorem allOk_sync (meds : List MedInput) :
    allOk (syncMedications meds) = Except.ok () := by
  induction meds with
  | nil => rfl
  | cons mi rest ih => simpa [syncMedications, allOk] using ih

theorem dayEntries_sync (meds : List MedInput) :
    dayEntries (syncMedications meds) =
      (syncMedications meds).map (fun sm => entryFor sm "08:00") := by
  induction meds with
  | nil => rfl
  | cons mi rest ih =>
      simp only [syncMedications, List.map_cons, dayEntries, List.flatten_cons] at ih ⊢
      rw [ih]
      rfl

/-- Claim C10: selecting a stored patient wholly replaces the working
medication list with one entry per stored medication, keeping only the
display name and resetting dosage to the empty string, frequency to
1일 1회 (once a day), timing to 아침 (morning) and duration to the empty
string; consequently every schedule produced afterwards carries, on each
of its days, exactly one 08:00 entry per synced medication, in order,
regardless of the originally recorded dosage, frequency or timing. -/
theorem syncMedications_reset_then_morning_schedule (meds : List MedInput) (t0 : Nat)
    (s : Schedule) :
    (syncMedications meds = meds.map (fun mi => mkSynced (displayOfInput mi)) ∧
      ∀ sm ∈ syncMedications meds,
        sm.dosage = some (some "") ∧ sm.frequency = some (some "1일 1회") ∧
          sm.timing = some (some "아침") ∧ sm.duration = some (some "") ∧
          deriveTimes sm = Except.ok ["08:00"]) ∧
    (generate ((syncMedications meds).map MedInput.record) (fun _ => t0) =
        Except.ok s →
      ∀ p ∈ s, p.2 = (syncMedications meds).map (fun sm => entryFor sm "08:00")) := by
  constructor
  · refine ⟨rfl, ?_⟩
    intro sm hsm
    simp only [syncMedications, List.mem_map] at hsm
    obtain ⟨mi, _, hmi⟩ := hsm
    subst hmi
    exact ⟨rfl, rfl, rfl, rfl, rfl⟩
  · intro h p hp
    have hc := generate_recs_closed (syncMedications meds) t0
    rw [h, allOk_sync] at hc
    cases hsync : syncMedications meds with
    | nil =>
        rw [hsync] at hc
        have hs : s = [] := by simpa using hc
        subst hs
        exact absurd hp (by simp)
    | cons sm0 srest =>
        rw [hsync] at hc
        have hs : s = rangeSched t0 (fun _ => dayEntries (sm0 :: srest)) := by
          simpa using hc
        subst hs
        simp only [rangeSched, List.mem_map] at hp
        obtain ⟨d, _, hpd⟩ := hp
        have hp2 : p.2 = dayEntries (sm0 :: srest) := by rw [← hpd]
        rw [hp2, ← hsync, dayEntries_sync]

/-- Witness for C10 at a concrete input: one stored plain-string
medication. -/
theorem syncMedications_reset_then_morning_schedule_witness :
    ((0 : Nat), [entryFor (mkSynced (some "X")) "08:00"]).2 =
      (syncMedications [MedInput.str "X"]).map (fun sm => entryFor sm "08:00") :=
  (syncMedications_reset_then_morning_schedule [MedInput.str "X"] 0
      (rangeSched 0 (fun _ => [entryFor (mkSynced (some "X")) "08:00"]))).2
    rfl ((0 : Nat), [entryFor (mkSynced (some "X")) "08:00"]) (by decide)
